import Mathlib

/-!
Verification development for the Upscale-Engine-CC backend core.

Shallow embedding of:
  * the workflow-graph resolver `ComfyUIExecutor.resolve_setget_nodes`
    (src/backend/comfyui_executor.py, lines 253-440),
  * the API compiler `ComfyUIExecutor.convert_to_api_format` (lines 443-639),
  * the streaming monitor loop of `ComfyUIExecutor.wait_for_result`
    (lines 666-781) and the polling-progress synthesis of
    `ComfyUIExecutor._poll_for_result` (lines 783-802),
  * the resource manager `ModelManager` (src/backend/model_manager.py).

Python dicts are modelled as association lists with overwrite-on-insert
semantics; JSON numbers are idealized as exact rationals; network and
device calls (engine constructors, the `/object_info` introspection
endpoint) are oracle parameters.
-/

namespace UpscaleEngine

/-- A widget / JSON scalar value as it appears in `widgets_values`.
JSON numbers are idealized as exact rationals. -/
inductive WVal where
  | str (s : String)
  | int (n : Int)
  | rat (q : ℚ)
  | bool (b : Bool)
  | null
deriving DecidableEq

/-- One entry of a node's `inputs` list: `{"name": ..., "link": ...}`.
`link` is `none` for a JSON `null` / missing link. -/
structure InSlot where
  name : String
  link : Option Int
deriving DecidableEq

/-- A frontend-format node, as read from the workflow JSON.
`title` is `none` when the `"title"` key is absent
(`node.get("title", node_type)` supplies the default). -/
structure FNode where
  id : Int
  type : String
  mode : Int
  widgets_values : List WVal
  inputs : List InSlot
  title : Option String
deriving DecidableEq

/-- A frontend-format link row
`[link_id, from_node, from_slot, to_node, to_slot, link_type, ...]`.
Rows with fewer than 6 elements (which the source silently skips) are
outside the model; `extra` holds any elements past the sixth, which the
source preserves verbatim when rewriting a link. -/
structure Link where
  id : Int
  fromNode : Int
  fromSlot : Int
  toNode : Int
  toSlot : Int
  ltype : String
  extra : List WVal
deriving DecidableEq

/-- A compiled (API format) input value: either a literal widget value or
a `[origin_node_id, origin_slot]` link reference. -/
inductive ApiVal where
  | wv (v : WVal)
  | link (node : String) (slot : Int)
deriving DecidableEq

/-- A compiled node: `{"class_type": ..., "inputs": {...}, "_meta": {"title": ...}}`. -/
structure ApiNode where
  class_type : String
  inputs : List (String × ApiVal)
  metaTitle : String
deriving DecidableEq

/-- A workflow dict.  `nodes`/`links` are `none` exactly when the
corresponding key is absent from the dict.  `api` holds the flat
id-keyed compiled entries; `extraKeys` names any other keys (their
values are never inspected or modified by the modelled code). -/
structure Workflow where
  nodes : Option (List FNode)
  links : Option (List Link)
  api : List (String × ApiNode)
  extraKeys : List String
deriving DecidableEq

/-- Python `str.isdigit`: nonempty and all characters are digits. -/
def isDigitStr (s : String) : Bool :=
  s.length > 0 && s.toList.all Char.isDigit

/-- The API-format detection both `resolve_setget_nodes` (line 267) and
`convert_to_api_format` (line 454) use:
`"nodes" not in workflow and any(k.isdigit() for k in workflow.keys())`. -/
def isApiFormat (wf : Workflow) : Bool :=
  wf.nodes.isNone &&
    (wf.api.any (fun e => isDigitStr e.1) || wf.extraKeys.any isDigitStr)

/-- Association-list insert with Python-dict overwrite semantics (the
key keeps its original position on overwrite). -/
def upsert {α β : Type} [DecidableEq α] : List (α × β) → α → β → List (α × β)
  | [], k, v => [(k, v)]
  | (k1, v1) :: rest, k, v =>
    if k1 = k then (k1, v) :: rest else (k1, v1) :: upsert rest k v

/-- First-match association lookup (unique keys by `upsert` construction). -/
def alookup {α β : Type} [DecidableEq α] : List (α × β) → α → Option β
  | [], _ => none
  | (k1, v1) :: rest, k => if k1 = k then some v1 else alookup rest k

/-- `link_by_id` lookup.  The source builds a dict in list order, so a
duplicated link id resolves to the **last** row carrying it. -/
def linkLookup (links : List Link) (lid : Int) : Option Link :=
  links.reverse.find? (fun l => l.id == lid)

/-- The name a SetNode / GetNode carries:
`widgets[0]` when `widgets_values` is nonempty, else `""` (lines 298-301). -/
def nameOf (n : FNode) : WVal :=
  n.widgets_values.headD (.str "")

/-- Ids of all `SetNode`-typed nodes (line 297). -/
def setnodeIds (nodes : List FNode) : List Int :=
  (nodes.filter (fun n => n.type == "SetNode")).map (fun n => n.id)

/-- Ids of all `GetNode`-typed nodes (line 322). -/
def getnodeIds (nodes : List FNode) : List Int :=
  (nodes.filter (fun n => n.type == "GetNode")).map (fun n => n.id)

/-- Per-node action of the SetNode scan (lines 295-314). -/
def setnodeStep (links : List Link)
    (acc : List (WVal × (Int × Int × String))) (n : FNode) :
    List (WVal × (Int × Int × String)) :=
  if n.type == "SetNode" then
    match n.inputs.head? with
    | some slot =>
      match slot.link with
      | some lid =>
        if lid ≠ 0 then
          match linkLookup links lid with
          | some l => upsert acc (nameOf n) (l.fromNode, l.fromSlot, l.ltype)
          | none => acc
        else acc
      | none => acc
    | none => acc
  else acc

/-- Step 1 of `resolve_setget_nodes` (lines 291-314): scan SetNodes in
order and record `name -> (source_node, source_slot, link_type)` from
the link feeding each SetNode's first input.  Python truthiness makes a
link id of `0` behave like an absent link (`if link_id and ...`). -/
def setnodeSources (nodes : List FNode) (links : List Link) :
    List (WVal × (Int × Int × String)) :=
  nodes.foldl (setnodeStep links) []

/-- Per-node action of the GetNode scan (lines 320-333). -/
def getnodeStep (srcs : List (WVal × (Int × Int × String)))
    (acc : List (Int × (Int × Int))) (n : FNode) : List (Int × (Int × Int)) :=
  if n.type == "GetNode" then
    match alookup srcs (nameOf n) with
    | some (sn, ss, _) => upsert acc n.id (sn, ss)
    | none => acc
  else acc

/-- Step 2 (lines 316-333): map each GetNode id to the source recorded
for its name; GetNodes whose name has no SetNode entry are orphans and
get no redirect (only a warning). -/
def getnodeRedirects (nodes : List FNode)
    (srcs : List (WVal × (Int × Int × String))) : List (Int × (Int × Int)) :=
  nodes.foldl (getnodeStep srcs) []

/-- Number of `GetNode '...' has no matching SetNode!` warnings (line 333). -/
def orphanGetCount (nodes : List FNode)
    (srcs : List (WVal × (Int × Int × String))) : Nat :=
  (nodes.filter
    (fun n => n.type == "GetNode" && (alookup srcs (nameOf n)).isNone)).length

/-- Step 3 (lines 335-364): drop links into Set/Get nodes, redirect
links out of resolvable GetNodes, drop links out of orphaned GetNodes
(counting the `Skipping link from orphaned GetNode` warnings, line 361),
keep everything else. -/
def rewriteLinks (setIds getIds : List Int)
    (redirects : List (Int × (Int × Int))) : List Link → List Link × Nat
  | [] => ([], 0)
  | l :: rest =>
    let r := rewriteLinks setIds getIds redirects rest
    if setIds.contains l.toNode then r
    else if getIds.contains l.toNode then r
    else if getIds.contains l.fromNode then
      match alookup redirects l.fromNode with
      | some (sn, ss) => ({ l with fromNode := sn, fromSlot := ss } :: r.1, r.2)
      | none => (r.1, r.2 + 1)
    else (l :: r.1, r.2)

/-- Step 5a (lines 395-407): the first connected input of an
`Any Switch (rgthree)` node — the first slot whose link id is truthy and
present in the rebuilt link map; the loop continues past unresolvable
slots. -/
def firstConnected (links : List Link) : List InSlot → Option (Int × Int)
  | [] => none
  | s :: rest =>
    match s.link with
    | some lid =>
      if lid ≠ 0 then
        match linkLookup links lid with
        | some l => some (l.fromNode, l.fromSlot)
        | none => firstConnected links rest
      else firstConnected links rest
    | none => firstConnected links rest

/-- Ids of all `Any Switch (rgthree)` nodes among the given nodes. -/
def anyswitchIds (nodes : List FNode) : List Int :=
  (nodes.filter (fun n => n.type == "Any Switch (rgthree)")).map (fun n => n.id)

/-- Per-node action of the switch scan (lines 395-407). -/
def anyswitchStep (newLinks : List Link)
    (acc : List (Int × (Int × Int))) (n : FNode) : List (Int × (Int × Int)) :=
  if n.type == "Any Switch (rgthree)" then
    match firstConnected newLinks n.inputs with
    | some (sn, ss) => upsert acc n.id (sn, ss)
    | none => acc
  else acc

/-- Step 5a (lines 392-407): map each switch id to its first connected
input's origin, scanning the set/get-free node list against the
rewritten links. -/
def anyswitchRedirects (nodes : List FNode) (newLinks : List Link) :
    List (Int × (Int × Int)) :=
  nodes.foldl (anyswitchStep newLinks) []

/-- Step 5b (lines 409-428): drop links into a switch; redirect links
whose origin has a switch redirect; keep the rest (links out of a switch
with no redirect survive unchanged). -/
def rewriteSwitchLinks (swIds : List Int)
    (redir : List (Int × (Int × Int))) : List Link → List Link
  | [] => []
  | l :: rest =>
    if swIds.contains l.toNode then rewriteSwitchLinks swIds redir rest
    else
      match alookup redir l.fromNode with
      | some (sn, ss) =>
        { l with fromNode := sn, fromSlot := ss } :: rewriteSwitchLinks swIds redir rest
      | none => l :: rewriteSwitchLinks swIds redir rest

/-- The links after the Set/Get pass (`new_links`, line 336) together
with the number of orphan-link warnings. -/
def resolvedNewLinksPair (nodes : List FNode) (links : List Link) :
    List Link × Nat :=
  rewriteLinks (setnodeIds nodes) (getnodeIds nodes)
    (getnodeRedirects nodes (setnodeSources nodes links)) links

/-- The nodes after SetNode/GetNode removal (`new_nodes`, line 368). -/
def resolvedNewNodes (nodes : List FNode) : List FNode :=
  nodes.filter
    (fun n => !(setnodeIds nodes).contains n.id &&
              !(getnodeIds nodes).contains n.id)

/-- The switch ids collected at line 392 (over `new_nodes`). -/
def resolvedSwIds (nodes : List FNode) : List Int :=
  anyswitchIds (resolvedNewNodes nodes)

/-- The switch redirect map of lines 392-407. -/
def resolvedSwRedir (nodes : List FNode) (links : List Link) :
    List (Int × (Int × Int)) :=
  anyswitchRedirects (resolvedNewNodes nodes) (resolvedNewLinksPair nodes links).1

/-- `final_links` (line 410). -/
def resolvedFinalLinks (nodes : List FNode) (links : List Link) : List Link :=
  rewriteSwitchLinks (resolvedSwIds nodes) (resolvedSwRedir nodes links)
    (resolvedNewLinksPair nodes links).1

/-- `final_nodes` (line 431). -/
def resolvedFinalNodes (nodes : List FNode) : List FNode :=
  (resolvedNewNodes nodes).filter (fun n => !(resolvedSwIds nodes).contains n.id)

/-- Total warnings logged by one resolution (lines 333 and 361). -/
def resolveWarnings (nodes : List FNode) (links : List Link) : Nat :=
  orphanGetCount nodes (setnodeSources nodes links) +
    (resolvedNewLinksPair nodes links).2

/-- `ComfyUIExecutor.resolve_setget_nodes` (lines 253-440), paired with
the number of warnings it logs.  Already-API-format workflows are
returned unchanged (lines 266-269); otherwise the result dict carries
the original entries with `nodes`/`links` replaced (lines 436-440). -/
def resolve_setget_nodes (wf : Workflow) : Workflow × Nat :=
  if isApiFormat wf then (wf, 0)
  else
    let nodes := wf.nodes.getD []
    let links := wf.links.getD []
    ({ wf with nodes := some (resolvedFinalNodes nodes),
               links := some (resolvedFinalLinks nodes links) },
      resolveWarnings nodes links)

/-- The three editor-only indirection node kinds. -/
def isIndirection (t : String) : Bool :=
  t == "SetNode" || t == "GetNode" || t == "Any Switch (rgthree)"

/-- Ids of all indirection-kind nodes of a node list. -/
def indirectionIds (nodes : List FNode) : List Int :=
  (nodes.filter (fun n => isIndirection n.type)).map (fun n => n.id)

/-! ## API compiler: `convert_to_api_format` (lines 443-639) -/

/-- `CLASS_TYPE_ALIASES` (lines 474-476). -/
def aliasOf (t : String) : String :=
  if t == "LoaderGGUF" then "UnetLoaderGGUF" else t

/-- `WIDGET_MAPPINGS` (lines 481-565): per node kind, the ordered
`(widget_name, widget_type)` list. -/
def WIDGET_MAPPINGS : List (String × List (String × String)) :=
  [ ("UNETLoaderGGUF", [("unet_name", "combo")]),
    ("VAELoader", [("vae_name", "combo")]),
    ("DualCLIPLoaderGGUF",
      [("clip_name1", "combo"), ("clip_name2", "combo"), ("type", "combo")]),
    ("CLIPLoader",
      [("clip_name", "combo"), ("type", "combo"), ("device", "combo")]),
    ("LoraLoaderModelOnly",
      [("lora_name", "combo"), ("strength_model", "float")]),
    ("LoRALoaderQwenImage",
      [("lora_name", "combo"), ("strength", "float")]),
    ("LoadImage", [("image", "combo"), ("upload", "hidden")]),
    ("TextEncodeQwenImageEdit", [("prompt", "string")]),
    ("KSampler",
      [("seed", "int"), ("control_after_generate", "combo"), ("steps", "int"),
       ("cfg", "float"), ("sampler_name", "combo"), ("scheduler", "combo"),
       ("denoise", "float")]),
    ("KSamplerSelect", [("sampler_name", "combo")]),
    ("BasicScheduler",
      [("scheduler", "combo"), ("steps", "int"), ("denoise", "float")]),
    ("SamplerCustomAdvanced",
      [("noise_seed", "int"), ("control_after_generate", "combo")]),
    ("EmptyLatentImage",
      [("width", "int"), ("height", "int"), ("batch_size", "int")]),
    ("ImageScaleToTotalPixels",
      [("upscale_method", "combo"), ("megapixels", "float")]),
    ("VAEDecode", []),
    ("VAEEncode", []),
    ("SaveImage", [("filename_prefix", "string")]),
    ("PreviewImage", []),
    ("SetNode", [("name", "string")]),
    ("GetNode", [("name", "string")]),
    ("easy cleanGpuUsed", [("action", "combo")]),
    ("Any Switch (rgthree)",
      [("any_01", "wildcard"), ("any_02", "wildcard")]) ]

/-- `WIDGET_MAPPINGS.get(t, [])`. -/
def staticWidgets (t : String) : List (String × String) :=
  (alookup WIDGET_MAPPINGS t).getD []

/-- Widget-name selection (lines 590-609): the static mapping for the
node type, else for the aliased type, else the dynamic introspection
lookup.  Python truthiness makes an *empty* static entry (for example
`VAEDecode`) fall through to the next source, exactly like a missing
one.  `dynW` abstracts `get_node_info` (a network call to
`/object_info`) composed with the required-input filtering of lines
598-609. -/
def widgetNamesFor (dynW : String → List (String × String))
    (nodeType apiClass : String) : List (String × String) :=
  let w1 := staticWidgets nodeType
  let w2 := if w1 = [] then staticWidgets apiClass else w1
  if w2 = [] then dynW apiClass else w2

/-- The positional widget pass (lines 611-625): pair widget values with
widget names in order; `hidden`-typed and `control_after_generate`
entries consume their position without emitting an input, values beyond
the mapped names are discarded, and missing trailing values leave their
names unset. -/
def widgetPass : List WVal → List (String × String) →
    List (String × ApiVal) → List (String × ApiVal)
  | [], _, m => m
  | _ :: _, [], m => m
  | v :: vs, (nm, wt) :: ns, m =>
    if wt == "hidden" then widgetPass vs ns m
    else if nm == "control_after_generate" then widgetPass vs ns m
    else widgetPass vs ns (upsert m nm (.wv v))

/-- The linked-input pass (lines 628-635): for each input slot whose
link id is non-`None` (note: **no** zero-truthiness here, the source
tests `link_id is not None`) and present in the link map, overwrite
`inputs[name]` with `[str(from_node), from_slot]`. -/
def applyLinkedInputs (links : List Link) :
    List InSlot → List (String × ApiVal) → List (String × ApiVal)
  | [], m => m
  | s :: rest, m =>
    match s.link with
    | some lid =>
      match linkLookup links lid with
      | some l =>
        applyLinkedInputs links rest
          (upsert m s.name (.link (toString l.fromNode) l.fromSlot))
      | none => applyLinkedInputs links rest m
    | none => applyLinkedInputs links rest m

/-- Compile one node to its API form (lines 567-637, per-node body). -/
def compileNode (dynW : String → List (String × String))
    (links : List Link) (n : FNode) : ApiNode :=
  let apiClass := aliasOf n.type
  let wnames := widgetNamesFor dynW n.type apiClass
  let inputs0 := widgetPass n.widgets_values wnames []
  let inputs1 := applyLinkedInputs links n.inputs inputs0
  { class_type := apiClass, inputs := inputs1,
    metaTitle := n.title.getD n.type }

/-- Node kinds skipped as UI-only (line 572). -/
def uiOnlyTypes : List String :=
  ["Note", "Label (rgthree)", "Fast Groups Bypasser (rgthree)", "Reroute"]

/-- `ComfyUIExecutor.convert_to_api_format` (lines 443-639).
Already-API-format workflows are returned unchanged (lines 453-457);
otherwise UI-only and bypassed (`mode == 4`) nodes are skipped and every
other node is compiled into the flat id-keyed output dict. -/
def convert_to_api_format (dynW : String → List (String × String))
    (wf : Workflow) : Workflow :=
  if isApiFormat wf then wf
  else
    let nodes := wf.nodes.getD []
    let links := wf.links.getD []
    let api := nodes.foldl
      (fun acc n =>
        if uiOnlyTypes.contains n.type then acc
        else if n.mode == 4 then acc
        else upsert acc (toString n.id) (compileNode dynW links n))
      []
    { nodes := none, links := none, api := api, extraKeys := [] }

/-! ## Streaming monitor: `wait_for_result` (lines 666-781) and
`_poll_for_result` (lines 783-802) -/

/-- Python `int()` applied to an exact rational: truncation toward zero. -/
def pyInt (q : ℚ) : Int :=
  if 0 ≤ q then ⌊q⌋ else ⌈q⌉

/-- `int((value / max) * 100)` (line 745), with the float arithmetic
idealized as exact rational arithmetic. -/
def pctOf (value maxVal : Int) : Int :=
  pyInt ((value : ℚ) / (maxVal : ℚ) * 100)

/-- One message received on the WebSocket channel.
`binaryFrame len` is a binary preview frame of `len` bytes (8-byte
header plus image data, decoding assumed to succeed); `jsonOther`
covers status messages of any unhandled type; `recvTimeout` is a
`WebSocketTimeoutException` on `recv`. -/
inductive WsMsg where
  | binaryFrame (len : Nat)
  | progress (value : Int) (maxVal : Int)
  | executing (node : Option String) (promptId : Option String)
  | executionError (nodeId nodeType excMsg : String)
  | jsonOther
  | recvTimeout
deriving DecidableEq

/-- A caller-visible event: an invocation of `progress_callback` with a
percentage, or of `preview_callback` with the current step. -/
inductive MonEv where
  | progressEv (pct : Int)
  | previewEv (step : Int)
deriving DecidableEq

/-- How the monitoring loop ends.  `completed` — the
`executing{node: None}` sentinel for this prompt was seen (break at line
754, result then fetched from history).  `timedOut` — the message
stream ran out before a terminal message (the `while` deadline lapsed;
the code still falls through to a history fetch).
`errorPollFallback msg` — an `execution_error` message raised
`RuntimeError(msg)` (line 762) which, after the inner re-raise (lines
767-769), is caught by the **outer** `except Exception` (lines 775-778)
and diverted into `_poll_for_result`. -/
inductive MonitorOutcome where
  | completed
  | timedOut
  | errorPollFallback (runtimeMsg : String)
deriving DecidableEq

/-- The receive loop of `wait_for_result` (lines 696-771) as a function
of the message sequence, returning the emitted events and the outcome.
`step` is `current_step`; both callbacks are assumed supplied.
Binary frames longer than 8 bytes always emit a preview (the
`preview_interval = 4` constant at line 686 is never consulted);
progress messages update the step counter unconditionally but report a
percentage only when `max > 0` (lines 738-747). -/
def wait_for_result_loop (promptId : String) :
    List WsMsg → Int → List MonEv × MonitorOutcome
  | [], _ => ([], .timedOut)
  | m :: rest, step =>
    match m with
    | .binaryFrame len =>
      let r := wait_for_result_loop promptId rest step
      if 8 < len then (.previewEv step :: r.1, r.2) else r
    | .progress v mx =>
      let r := wait_for_result_loop promptId rest v
      if 0 < mx then (.progressEv (pctOf v mx) :: r.1, r.2) else r
    | .executing node pid =>
      if node = none ∧ pid = some promptId then ([], .completed)
      else wait_for_result_loop promptId rest step
    | .executionError _nodeId nodeType excMsg =>
      ([], .errorPollFallback ("ComfyUI error in " ++ nodeType ++ ": " ++ excMsg))
    | .jsonOther => wait_for_result_loop promptId rest step
    | .recvTimeout => wait_for_result_loop promptId rest step

/-- What `wait_for_result` does after the loop. -/
inductive AfterPath where
  | fetchHistory
  | pollFallback
deriving DecidableEq

/-- The continuation `wait_for_result` takes once the loop ends: a
normal or timed-out loop exit fetches the result from history (line
781); an escaped exception — including the `execution_error`
`RuntimeError` — falls back to `_poll_for_result` (lines 775-778). -/
def wait_for_result_path (promptId : String) (msgs : List WsMsg) : AfterPath :=
  match (wait_for_result_loop promptId msgs 0).2 with
  | .completed => .fetchHistory
  | .timedOut => .fetchHistory
  | .errorPollFallback _ => .pollFallback

/-- The progress percentages handed to `progress_callback` during
streaming monitoring, in order. -/
def streamPcts (promptId : String) (msgs : List WsMsg) (step : Int) : List Int :=
  (wait_for_result_loop promptId msgs step).1.filterMap
    (fun e => match e with | .progressEv p => some p | .previewEv _ => none)

/-- The prefix of the message stream the loop actually processes: the
messages before the completion sentinel or an `execution_error`. -/
def preTerm (promptId : String) : List WsMsg → List WsMsg
  | [] => []
  | .executing node pid :: rest =>
    if node = none ∧ pid = some promptId then []
    else .executing node pid :: preTerm promptId rest
  | .executionError _ _ _ :: _ => []
  | .binaryFrame len :: rest => .binaryFrame len :: preTerm promptId rest
  | .progress v mx :: rest => .progress v mx :: preTerm promptId rest
  | .jsonOther :: rest => .jsonOther :: preTerm promptId rest
  | .recvTimeout :: rest => .recvTimeout :: preTerm promptId rest

/-- The `value/max` ratio a progress message reports, when its `max` is
positive. -/
def posRatio : WsMsg → Option ℚ
  | .progress v mx => if 0 < mx then some ((v : ℚ) / (mx : ℚ)) else none
  | .binaryFrame _ => none
  | .executing _ _ => none
  | .executionError _ _ _ => none
  | .jsonOther => none
  | .recvTimeout => none

/-- The synthesized progress estimate of `_poll_for_result` (line 797):
`min(95, int((elapsed / timeout) * 100))`, floats idealized as exact
rationals. -/
def poll_progress (elapsed timeout : ℚ) : Int :=
  min 95 (pyInt (elapsed / timeout * 100))

/-! ## Resource manager: `ModelManager` (src/backend/model_manager.py) -/

/-- `ModelManager` state.  `loaded` is `loaded_models` (engine handles
modelled as opaque `Nat` ids); `teardowns` counts the times
`unload_all` actually released a handle, and `ctorCalls` the times
`get_model` entered the engine-construction phase — instrumentation for
the no-teardown/no-reconstruction claims. -/
structure MMState where
  loaded : List (String × Nat)
  activeKey : Option String
  teardowns : Nat
  ctorCalls : Nat
deriving DecidableEq

/-- The state after `ModelManager.__init__`. -/
def initMM : MMState :=
  { loaded := [], activeKey := none, teardowns := 0, ctorCalls := 0 }

/-- `ModelManager.unload_all` (lines 34-57): a no-op when nothing is
loaded (early return at lines 36-37, which leaves `active_model_key`
untouched); otherwise clears the handle map and the active key. -/
def unload_all (s : MMState) : MMState :=
  if s.loaded = [] then s
  else { loaded := [], activeKey := none,
         teardowns := s.teardowns + 1, ctorCalls := s.ctorCalls }

/-- The model keys `get_model` recognizes (lines 80-114). -/
def knownKeys : List String :=
  ["esrgan", "swinir", "supresdiffgan", "sdxl", "qwen", "gfpgan", "inpaint"]

/-- `ModelManager.get_model` (lines 59-129).  `ctorRes` is the outcome
the external world (model path lookup plus engine constructor) would
produce for this call if construction is attempted; an unknown key
raises `ValueError` before any construction (line 117).  On a
construction failure the manager runs `unload_all` and re-raises
(lines 125-129). -/
def get_model (s : MMState) (key : String) (ctorRes : Except String Nat) :
    Except String Nat × MMState :=
  match alookup s.loaded key with
  | some h => (.ok h, { s with activeKey := some key })
  | none =>
    let s1 :=
      match s.activeKey with
      | some a => if a ≠ key then unload_all s else s
      | none => s
    if knownKeys.contains key then
      let s2 := { s1 with ctorCalls := s1.ctorCalls + 1 }
      match ctorRes with
      | .ok h =>
        (.ok h, { s2 with loaded := upsert s2.loaded key h,
                          activeKey := some key })
      | .error e => (.error e, unload_all s2)
    else
      (.error ("Unknown model key: " ++ key), unload_all s1)

/-- One acquire call of a run: the requested key together with the
construction outcome the environment would supply. -/
def mmStep (s : MMState) (c : String × Except String Nat) : MMState :=
  (get_model s c.1 c.2).2

/-- All states visited by a sequence of `get_model` calls starting from
a fresh manager (the state before the first call included). -/
def mmStates (calls : List (String × Except String Nat)) : List MMState :=
  calls.scanl mmStep initMM

/-- The reachable-state invariant of the manager: the handle map is
empty with no active key, or holds exactly the active key's handle. -/
def mmInv (s : MMState) : Bool :=
  match s.loaded with
  | [] => s.activeKey == none
  | [(k, _)] => s.activeKey == some k
  | _ :: _ :: _ => false

/-! ## Concrete instances used by counterexamples and witnesses -/

/-- A frontend node with default mode and no title. -/
def mkNode (i : Int) (t : String) (w : List WVal) (ins : List InSlot) : FNode :=
  { id := i, type := t, mode := 0, widgets_values := w, inputs := ins,
    title := none }

/-- The spec section-8 example graph: `{1: LoadImage, 2: SetNode(x),
3: GetNode(x), 4: Encoder}` with links `1 -> 2` and `3 -> 4`. -/
def wfSpecExample : Workflow :=
  { nodes := some
      [ mkNode 1 "LoadImage" [.str "a.png"] [],
        mkNode 2 "SetNode" [.str "x"] [⟨"value", some 1⟩],
        mkNode 3 "GetNode" [.str "x"] [],
        mkNode 4 "Encoder" [] [⟨"image", some 2⟩] ],
    links := some
      [ ⟨1, 1, 0, 2, 0, "IMAGE", []⟩,
        ⟨2, 3, 0, 4, 0, "IMAGE", []⟩ ],
    api := [], extraKeys := [] }

/-- An editor-form graph containing all three indirection kinds in which
a link *originates at* a SetNode (id 1) and feeds a normal node (id 2).
The resolver never rewrites or drops links whose origin is a SetNode, so
this link survives resolution while node 1 is removed. -/
def wf3cex : Workflow :=
  { nodes := some
      [ mkNode 1 "SetNode" [.str "x"] [⟨"value", none⟩],
        mkNode 2 "PreviewImage" [] [⟨"images", some 10⟩],
        mkNode 3 "GetNode" [.str "x"] [],
        mkNode 4 "Any Switch (rgthree)" [] [⟨"any_01", none⟩] ],
    links := some [⟨10, 1, 0, 2, 0, "IMAGE", []⟩],
    api := [], extraKeys := [] }

/-- A workflow already in compiled (API) form: no node/link lists, one
flat digit-keyed entry. -/
def wfCompiled : Workflow :=
  { nodes := none, links := none,
    api := [("3", { class_type := "KSampler",
                    inputs := [("seed", .wv (.int 3))],
                    metaTitle := "KSampler" })],
    extraKeys := [] }

/-- A graph whose GetNode (id 3, name `y`) has no matching SetNode: its
outgoing link (id 20) must be dropped while the unrelated link (id 21)
and the executable nodes survive. -/
def wf7orphan : Workflow :=
  { nodes := some
      [ mkNode 1 "LoadImage" [.str "a.png"] [],
        mkNode 3 "GetNode" [.str "y"] [],
        mkNode 4 "SaveImage" [.str "out"]
          [⟨"images", some 20⟩, ⟨"extra", some 21⟩] ],
    links := some
      [ ⟨20, 3, 0, 4, 0, "IMAGE", []⟩,
        ⟨21, 1, 0, 4, 1, "IMAGE", []⟩ ],
    api := [], extraKeys := [] }

/-- A node holding both a positional value and a bound link for the
input name `lora_name`. -/
def nodeC8 : FNode :=
  { id := 5, type := "LoraLoaderModelOnly", mode := 0,
    widgets_values := [.str "a.safetensors", .int 1],
    inputs := [⟨"lora_name", some 9⟩], title := none }

/-- The link bound to `nodeC8`'s `lora_name` slot: origin node 3, slot 0. -/
def linksC8 : List Link :=
  [⟨9, 3, 0, 5, 0, "COMBO", []⟩]

/-! ## Theorems -/

/-- Unfolding of the reachable-state invariant. -/
theorem mmInv_destruct (s : MMState) (h : mmInv s = true) :
    (s.loaded = [] ∧ s.activeKey = none) ∨
    ∃ k hd, s.loaded = [(k, hd)] ∧ s.activeKey = some k := by
  unfold mmInv at h
  cases hl : s.loaded with
  | nil =>
    rw [hl] at h
    simp only [beq_iff_eq] at h
    exact Or.inl ⟨rfl, h⟩
  | cons p rest =>
    obtain ⟨k, hd⟩ := p
    cases rest with
    | nil =>
      rw [hl] at h
      simp only [beq_iff_eq] at h
      exact Or.inr ⟨k, hd, rfl, h⟩
    | cons q rest2 =>
      rw [hl] at h
      simp at h

/-- `get_model` preserves the reachable-state invariant. -/
theorem get_model_preserves_inv (s : MMState) (key : String)
    (ctorRes : Except String Nat) (h : mmInv s = true) :
    mmInv (get_model s key ctorRes).2 = true := by
  rcases mmInv_destruct s h with ⟨hl, ha⟩ | ⟨k, hd, hl, ha⟩
  · simp only [get_model, hl, ha, alookup]
    split
    · cases ctorRes with
      | ok h2 => simp [mmInv, unload_all, upsert, hl, ha]
      | error e => simp [mmInv, unload_all, hl, ha]
    · simp [mmInv, unload_all, hl, ha]
  · by_cases hk : k = key
    · subst hk
      have hfound : alookup s.loaded k = some hd := by
        rw [hl]; simp [alookup]
      simp only [get_model, hfound]
      simp [mmInv, hl]
    · have hmiss : alookup s.loaded key = none := by
        rw [hl]; simp [alookup, hk]
      have hu : unload_all s =
          { loaded := [], activeKey := none,
            teardowns := s.teardowns + 1, ctorCalls := s.ctorCalls } := by
        unfold unload_all
        rw [if_neg (by rw [hl]; simp)]
      simp only [get_model, hmiss, ha]
      rw [if_pos hk, hu]
      split
      · cases ctorRes with
        | ok h2 => simp [mmInv, unload_all, upsert]
        | error e => simp [mmInv, unload_all]
      · simp [mmInv, unload_all]

/-- Every state visited by a call sequence satisfies the invariant. -/
theorem mmStates_inv (calls : List (String × Except String Nat)) :
    ∀ s ∈ mmStates calls, mmInv s = true := by
  have gen : ∀ (cs : List (String × Except String Nat)) (s0 : MMState),
      mmInv s0 = true → ∀ s ∈ cs.scanl mmStep s0, mmInv s = true := by
    intro cs
    induction cs with
    | nil =>
      intro s0 h0 s hs
      simp only [List.scanl_nil, List.mem_singleton] at hs
      subst hs; exact h0
    | cons c rest ih =>
      intro s0 h0 s hs
      rw [List.scanl_cons] at hs
      rcases List.mem_cons.mp hs with rfl | hs2
      · exact h0
      · exact ih (mmStep s0 c) (get_model_preserves_inv s0 c.1 c.2 h0) s hs2
  intro s hs
  exact gen calls initMM (by decide) s hs

/-- C2: along any sequence of `get_model` calls from a fresh manager, at
most one engine handle is resident immediately after each call; and
acquiring a key that is already resident returns its stored handle and
changes nothing but the active-key record — in particular no
`unload_all` teardown and no construction attempt happens
(`teardowns` and `ctorCalls` are untouched). -/
theorem C2_single_resident_and_no_rework_on_hit :
    (∀ calls : List (String × Except String Nat),
       ∀ s ∈ mmStates calls, s.loaded.length ≤ 1) ∧
    (∀ (s : MMState) (key : String) (hd : Nat) (ctorRes : Except String Nat),
       alookup s.loaded key = some hd →
       get_model s key ctorRes = (.ok hd, { s with activeKey := some key })) := by
  constructor
  · intro calls s hs
    rcases mmInv_destruct s (mmStates_inv calls s hs) with ⟨hl, _⟩ | ⟨k, hd, hl, _⟩
    · rw [hl]; simp
    · rw [hl]; simp
  · intro s key hd ctorRes hfound
    simp [get_model, hfound]

/-- Witness for C2: the state after acquiring `sdxl` holds one handle,
and re-acquiring a resident `esrgan` returns handle 2 with the state
(counters included) unchanged. -/
theorem C2_single_resident_and_no_rework_on_hit_witness :
    ({ loaded := [("sdxl", 1)], activeKey := some "sdxl",
       teardowns := 0, ctorCalls := 1 } : MMState).loaded.length ≤ 1 ∧
    get_model { loaded := [("esrgan", 2)], activeKey := some "esrgan",
                teardowns := 1, ctorCalls := 2 } "esrgan" (.ok 99)
      = (.ok 2, { loaded := [("esrgan", 2)], activeKey := some "esrgan",
                  teardowns := 1, ctorCalls := 2 }) :=
  ⟨C2_single_resident_and_no_rework_on_hit.1 [("sdxl", .ok 1)] _ (by decide),
   C2_single_resident_and_no_rework_on_hit.2 _ "esrgan" 2 (.ok 99) (by decide)⟩

/-- C9: when a `get_model` call on a reachable state must construct
(key not resident) and construction fails — either the key is unknown
or the engine constructor raises — the failure is re-raised unchanged
and afterwards no handle is resident and the active-key record is
cleared. -/
theorem C9_construction_failure_reraises_with_clean_state
    (s : MMState) (key : String) (ctorRes : Except String Nat) (e : String)
    (hinv : mmInv s = true)
    (hmiss : alookup s.loaded key = none)
    (hfail : (if knownKeys.contains key then ctorRes
              else Except.error ("Unknown model key: " ++ key))
             = Except.error e) :
    (get_model s key ctorRes).1 = .error e ∧
    (get_model s key ctorRes).2.loaded = [] ∧
    (get_model s key ctorRes).2.activeKey = none := by
  rcases mmInv_destruct s hinv with ⟨hl, ha⟩ | ⟨k, hd, hl, ha⟩
  · simp only [get_model, hmiss, ha]
    by_cases hkn : knownKeys.contains key
    · rw [if_pos hkn] at hfail
      subst hfail
      rw [if_pos hkn]
      simp [unload_all, hl, ha]
    · rw [if_neg hkn] at hfail
      rw [if_neg hkn]
      simp only [Except.error.injEq] at hfail
      subst hfail
      simp [unload_all, hl, ha]
  · have hk : k ≠ key := by
      intro hkk
      subst hkk
      rw [hl] at hmiss
      simp [alookup] at hmiss
    have hu : unload_all s =
        { loaded := [], activeKey := none,
          teardowns := s.teardowns + 1, ctorCalls := s.ctorCalls } := by
      unfold unload_all
      rw [if_neg (by rw [hl]; simp)]
    simp only [get_model, hmiss, ha]
    rw [if_pos hk, hu]
    by_cases hkn : knownKeys.contains key
    · rw [if_pos hkn] at hfail
      subst hfail
      rw [if_pos hkn]
      simp [unload_all]
    · rw [if_neg hkn] at hfail
      rw [if_neg hkn]
      simp only [Except.error.injEq] at hfail
      subst hfail
      simp [unload_all]

/-- Witness for C9: acquiring the unknown key `nosuch` on a fresh
manager re-raises `ValueError("Unknown model key: nosuch")` and leaves
no handle and no active key. -/
theorem C9_construction_failure_reraises_with_clean_state_witness :
    (get_model initMM "nosuch" (.ok 5)).1 = .error "Unknown model key: nosuch" ∧
    (get_model initMM "nosuch" (.ok 5)).2.loaded = [] ∧
    (get_model initMM "nosuch" (.ok 5)).2.activeKey = none :=
  C9_construction_failure_reraises_with_clean_state initMM "nosuch" (.ok 5)
    "Unknown model key: nosuch" (by decide) (by decide)
    (by rw [if_neg (by decide)]; rfl)

/-- C1 (divergence evaluation): on a stream that reports progress and
then an `execution_error` — with no completion sentinel — the loop ends
in `errorPollFallback` and `wait_for_result` takes the polling-fallback
path, so the failure is *not* propagated to the caller as a terminal
error; the `RuntimeError` text carries the node kind and message but not
the node id `"7"`. -/
theorem C1_execution_error_diverted_to_polling :
    wait_for_result_loop "p1"
        [.progress 5 20, .executionError "7" "KSampler" "OOM"] 0
      = ([.progressEv (pctOf 5 20)],
         .errorPollFallback "ComfyUI error in KSampler: OOM") ∧
    wait_for_result_path "p1"
        [.progress 5 20, .executionError "7" "KSampler" "OOM"]
      = .pollFallback := by
  exact ⟨rfl, rfl⟩

/-- C6 (divergence evaluation): three consecutive binary preview frames
with no intervening progress step each trigger a preview event — one per
received frame, at the same step `0` — showing that no every-4th-step
stride is applied (`preview_interval` is defined at line 686 but never
used). -/
theorem C6_preview_emitted_every_frame :
    wait_for_result_loop "p"
        [.binaryFrame 100, .binaryFrame 100, .binaryFrame 100] 0
      = ([.previewEv 0, .previewEv 0, .previewEv 0], .timedOut) := by
  exact rfl

/-- C10: a `progress` status message reports a percentage if and only if
its `max` field is strictly positive; with `max ≤ 0` the internal step
counter is still updated to `value` but no progress callback fires (and
the `value/max` division is never evaluated). -/
theorem C10_progress_positive_max_guard (pid : String) (v mx : Int)
    (rest : List WsMsg) (step : Int) :
    (mx ≤ 0 → wait_for_result_loop pid (.progress v mx :: rest) step =
        wait_for_result_loop pid rest v) ∧
    (0 < mx → wait_for_result_loop pid (.progress v mx :: rest) step =
        (.progressEv (pctOf v mx) :: (wait_for_result_loop pid rest v).1,
         (wait_for_result_loop pid rest v).2)) := by
  constructor
  · intro h
    simp only [wait_for_result_loop]
    rw [if_neg (by omega)]
  · intro h
    simp only [wait_for_result_loop]
    rw [if_pos h]

/-- Witness for C10 at concrete inputs: `max = 0` leaves the stream of
the remaining messages (with step updated to 7), `max = 20` prepends the
percentage event. -/
theorem C10_progress_positive_max_guard_witness :
    wait_for_result_loop "p" [.progress 7 0] 0 = wait_for_result_loop "p" [] 7 ∧
    wait_for_result_loop "p" [.progress 10 20] 0 =
      (.progressEv (pctOf 10 20) :: (wait_for_result_loop "p" [] 10).1,
       (wait_for_result_loop "p" [] 10).2) :=
  ⟨(C10_progress_positive_max_guard "p" 7 0 [] 0).1 (by decide),
   (C10_progress_positive_max_guard "p" 10 20 [] 0).2 (by decide)⟩

/-- Looking up the key just upserted yields the new value. -/
theorem alookup_upsert_self {α β : Type} [DecidableEq α]
    (m : List (α × β)) (k : α) (v : β) :
    alookup (upsert m k v) k = some v := by
  induction m with
  | nil => simp [upsert, alookup]
  | cons p rest ih =>
    obtain ⟨k1, v1⟩ := p
    by_cases h : k1 = k
    · subst h; simp [upsert, alookup]
    · simp [upsert, alookup, h, ih]

/-- Upserting one key leaves lookups of other keys unchanged. -/
theorem alookup_upsert_ne {α β : Type} [DecidableEq α]
    (m : List (α × β)) (k : α) (v : β) (k2 : α) (h : k2 ≠ k) :
    alookup (upsert m k v) k2 = alookup m k2 := by
  induction m with
  | nil => simp [upsert, alookup, Ne.symm h]
  | cons p rest ih =>
    obtain ⟨k1, v1⟩ := p
    by_cases h1 : k1 = k
    · subst h1; simp [upsert, alookup, Ne.symm h]
    · simp [upsert, alookup, h1, ih]

/-- A successful lookup pins an actual entry of the list. -/
theorem alookup_mem {α β : Type} [DecidableEq α] :
    ∀ (m : List (α × β)) (k : α) (v : β), alookup m k = some v → (k, v) ∈ m := by
  intro m
  induction m with
  | nil => intro k v h; simp [alookup] at h
  | cons p rest ih =>
    intro k v h
    obtain ⟨k1, v1⟩ := p
    by_cases h1 : k1 = k
    · subst h1
      rw [alookup, if_pos rfl] at h
      injection h with h2
      subst h2
      exact List.mem_cons_self _ _
    · rw [alookup, if_neg h1] at h
      exact List.mem_cons_of_mem _ (ih k v h)

/-- If no slot of the list carries the name, the linked-input pass does
not change that name's binding. -/
theorem applyLinkedInputs_lookup_no_match (links : List Link) (nm : String) :
    ∀ (slots : List InSlot) (m : List (String × ApiVal)),
      (∀ s ∈ slots, s.name ≠ nm) →
      alookup (applyLinkedInputs links slots m) nm = alookup m nm := by
  intro slots
  induction slots with
  | nil => intro m _; simp [applyLinkedInputs]
  | cons s rest ih =>
    intro m h
    have hs : s.name ≠ nm := h s (by simp)
    have hr : ∀ t ∈ rest, t.name ≠ nm := fun t ht => h t (by simp [ht])
    cases hl : s.link with
    | none => simp only [applyLinkedInputs, hl]; exact ih _ hr
    | some lid =>
      cases hL : linkLookup links lid with
      | none => simp only [applyLinkedInputs, hl, hL]; exact ih _ hr
      | some l =>
        simp only [applyLinkedInputs, hl, hL]
        rw [ih _ hr, alookup_upsert_ne _ _ _ _ (Ne.symm hs)]

/-- If exactly one slot carries the name and its link resolves, the
linked-input pass binds the name to that link's origin reference,
regardless of what the positional pass put there. -/
theorem applyLinkedInputs_lookup_unique (links : List Link) (nm : String)
    (lid : Int) (l : Link) (hL : linkLookup links lid = some l) :
    ∀ (slots : List InSlot) (m : List (String × ApiVal)),
      slots.filter (fun s => s.name == nm) = [⟨nm, some lid⟩] →
      alookup (applyLinkedInputs links slots m) nm
        = some (.link (toString l.fromNode) l.fromSlot) := by
  intro slots
  induction slots with
  | nil => intro m h; simp at h
  | cons s rest ih =>
    intro m h
    by_cases hname : s.name = nm
    · rw [List.filter_cons_of_pos (by simp [hname])] at h
      simp only [List.cons.injEq] at h
      obtain ⟨hs, hrest⟩ := h
      subst hs
      have hnone : ∀ t ∈ rest, t.name ≠ nm := by
        intro t ht heq
        have hmem : t ∈ rest.filter (fun s => s.name == nm) :=
          List.mem_filter.mpr ⟨ht, by simp [heq]⟩
        rw [hrest] at hmem
        simp at hmem
      simp only [applyLinkedInputs, hL]
      rw [applyLinkedInputs_lookup_no_match links nm rest _ hnone]
      exact alookup_upsert_self _ _ _
    · rw [List.filter_cons_of_neg (by simp [hname])] at h
      cases hl2 : s.link with
      | none => simp only [applyLinkedInputs, hl2]; exact ih _ h
      | some lid2 =>
        cases hL2 : linkLookup links lid2 with
        | none => simp only [applyLinkedInputs, hl2, hL2]; exact ih _ h
        | some l2 => simp only [applyLinkedInputs, hl2, hL2]; exact ih _ h

/-- C8: for a node compiled by the API compiler holding both a
positional value for input name `nm` (placed by the widget pass) and a
single input slot of that name whose link resolves in the link map, the
compiled input at `nm` is the `[origin_node_id, origin_slot]` link
reference — never the positional value. -/
theorem C8_link_reference_overrides_positional
    (dynW : String → List (String × String)) (n : FNode) (nm : String)
    (lid : Int) (l : Link) (links : List Link) (w : ApiVal)
    (hslots : n.inputs.filter (fun s => s.name == nm) = [⟨nm, some lid⟩])
    (hL : linkLookup links lid = some l)
    (hw : alookup (widgetPass n.widgets_values
            (widgetNamesFor dynW n.type (aliasOf n.type)) []) nm = some w) :
    alookup (compileNode dynW links n).inputs nm
      = some (.link (toString l.fromNode) l.fromSlot) := by
  simp only [compileNode]
  exact applyLinkedInputs_lookup_unique links nm lid l hL n.inputs _ hslots

/-- Witness for C8: `nodeC8` has the positional value
`"a.safetensors"` at `lora_name` and a bound link from node 3 slot 0;
the compiled input is the link reference `["3", 0]`. -/
theorem C8_link_reference_overrides_positional_witness :
    alookup (compileNode (fun _ => []) linksC8 nodeC8).inputs "lora_name"
      = some (.link (toString (3 : Int)) 0) ∧
    alookup (widgetPass nodeC8.widgets_values
        (widgetNamesFor (fun _ => []) nodeC8.type (aliasOf nodeC8.type)) [])
        "lora_name" = some (.wv (.str "a.safetensors")) :=
  ⟨C8_link_reference_overrides_positional (fun _ => []) nodeC8 "lora_name" 9
      ⟨9, 3, 0, 5, 0, "COMBO", []⟩ linksC8 (.wv (.str "a.safetensors"))
      (by decide) (by decide) (by decide),
   by decide⟩

/-- C4: a workflow already in compiled (API) form — no `nodes`/`links`
keys, only flat digit-keyed entries, at least one present — is returned
unchanged by both resolution and compilation. -/
theorem C4_resolution_and_compilation_identity_on_compiled
    (dynW : String → List (String × String)) (wf : Workflow)
    (hnodes : wf.nodes = none) (hlinks : wf.links = none)
    (hextra : wf.extraKeys = []) (hne : wf.api ≠ [])
    (hdigit : wf.api.all (fun e => isDigitStr e.1) = true) :
    (resolve_setget_nodes wf).1 = wf ∧ convert_to_api_format dynW wf = wf := by
  have hg : isApiFormat wf = true := by
    obtain ⟨e, rest, hapi⟩ : ∃ e rest, wf.api = e :: rest := by
      cases h : wf.api with
      | nil => exact absurd h hne
      | cons e rest => exact ⟨e, rest, rfl⟩
    rw [hapi] at hdigit
    rw [List.all_cons, Bool.and_eq_true] at hdigit
    unfold isApiFormat
    rw [hnodes, hapi]
    simp [hdigit.1]
  constructor
  · simp [resolve_setget_nodes, hg]
  · simp [convert_to_api_format, hg]

/-- Witness for C4: the concrete compiled workflow `wfCompiled` is a
fixed point of both transformations. -/
theorem C4_resolution_and_compilation_identity_on_compiled_witness :
    (resolve_setget_nodes wfCompiled).1 = wfCompiled ∧
    convert_to_api_format (fun _ => []) wfCompiled = wfCompiled :=
  C4_resolution_and_compilation_identity_on_compiled (fun _ => [])
    wfCompiled rfl rfl rfl (by decide) (by decide)

/-- Membership in an `upsert` result comes from the original list or is
the inserted pair. -/
theorem mem_upsert {α β : Type} [DecidableEq α] :
    ∀ (m : List (α × β)) (k : α) (v : β) (e : α × β),
      e ∈ upsert m k v → e ∈ m ∨ e = (k, v) := by
  intro m
  induction m with
  | nil => intro k v e h; simp [upsert] at h; exact Or.inr h
  | cons p rest ih =>
    intro k v e h
    obtain ⟨k1, v1⟩ := p
    by_cases h1 : k1 = k
    · subst h1
      rw [upsert, if_pos rfl] at h
      rcases List.mem_cons.mp h with rfl | h2
      · exact Or.inr rfl
      · exact Or.inl (List.mem_cons_of_mem _ h2)
    · rw [upsert, if_neg h1] at h
      rcases List.mem_cons.mp h with rfl | h2
      · exact Or.inl (List.mem_cons_self _ _)
      · rcases ih k v e h2 with h3 | h3
        · exact Or.inl (List.mem_cons_of_mem _ h3)
        · exact Or.inr h3

/-- Characterization of membership in a filtered-and-projected id list. -/
theorem typeIds_contains (p : FNode → Bool) (ns : List FNode) (i : Int) :
    ((ns.filter p).map (fun n => n.id)).contains i = true ↔
    ∃ n ∈ ns, p n = true ∧ n.id = i := by
  constructor
  · intro h
    have h2 : i ∈ (ns.filter p).map (fun n => n.id) := by simpa using h
    obtain ⟨n, hn, hid⟩ := List.mem_map.mp h2
    obtain ⟨hmem, hp⟩ := List.mem_filter.mp hn
    exact ⟨n, hmem, hp, hid⟩
  · intro ⟨n, hmem, hp, hid⟩
    have h2 : i ∈ (ns.filter p).map (fun n => n.id) :=
      List.mem_map.mpr ⟨n, List.mem_filter.mpr ⟨hmem, hp⟩, hid⟩
    simpa using h2

/-- Every entry of the GetNode redirect map records a GetNode's id and
the source looked up for its name. -/
theorem getnodeRedirects_entry (srcs : List (WVal × (Int × Int × String))) :
    ∀ (ns : List FNode) (acc : List (Int × (Int × Int))) (e : Int × (Int × Int)),
      e ∈ ns.foldl (getnodeStep srcs) acc →
      e ∈ acc ∨ ∃ n ∈ ns, n.type = "GetNode" ∧ e.1 = n.id ∧
        ∃ t, alookup srcs (nameOf n) = some (e.2.1, e.2.2, t) := by
  intro ns
  induction ns with
  | nil => intro acc e h; exact Or.inl h
  | cons n rest ih =>
    intro acc e h
    rw [List.foldl_cons] at h
    rcases ih _ e h with hacc | ⟨n2, hm, hrest⟩
    · unfold getnodeStep at hacc
      by_cases ht : n.type == "GetNode"
      · rw [if_pos ht] at hacc
        cases hsrc : alookup srcs (nameOf n) with
        | none => rw [hsrc] at hacc; exact Or.inl hacc
        | some q =>
          obtain ⟨sn, ss, t⟩ := q
          rw [hsrc] at hacc
          rcases mem_upsert _ _ _ _ hacc with h2 | h2
          · exact Or.inl h2
          · subst h2
            exact Or.inr ⟨n, List.mem_cons_self _ _, by simpa using ht, rfl,
              t, hsrc⟩
      · rw [if_neg ht] at hacc; exact Or.inl hacc
    · exact Or.inr ⟨n2, List.mem_cons_of_mem _ hm, hrest⟩

/-- Every entry of the switch redirect map records a switch node's id
and its first connected input's origin. -/
theorem anyswitchRedirects_entry (newLinks : List Link) :
    ∀ (ns : List FNode) (acc : List (Int × (Int × Int))) (e : Int × (Int × Int)),
      e ∈ ns.foldl (anyswitchStep newLinks) acc →
      e ∈ acc ∨ ∃ n ∈ ns, n.type = "Any Switch (rgthree)" ∧ e.1 = n.id ∧
        firstConnected newLinks n.inputs = some e.2 := by
  intro ns
  induction ns with
  | nil => intro acc e h; exact Or.inl h
  | cons n rest ih =>
    intro acc e h
    rw [List.foldl_cons] at h
    rcases ih _ e h with hacc | ⟨n2, hm, hrest⟩
    · unfold anyswitchStep at hacc
      by_cases ht : n.type == "Any Switch (rgthree)"
      · rw [if_pos ht] at hacc
        cases hfc : firstConnected newLinks n.inputs with
        | none => rw [hfc] at hacc; exact Or.inl hacc
        | some q =>
          rw [hfc] at hacc
          rcases mem_upsert _ _ _ _ hacc with h2 | h2
          · exact Or.inl h2
          · subst h2
            exact Or.inr ⟨n, List.mem_cons_self _ _, by simpa using ht, rfl, hfc⟩
      · rw [if_neg ht] at hacc; exact Or.inl hacc
    · exact Or.inr ⟨n2, List.mem_cons_of_mem _ hm, hrest⟩

/-- Provenance of a link surviving the Set/Get rewrite pass: it comes
from an input link whose target is no Set/Get node, either redirected
(origin was a resolvable GetNode) or kept verbatim (origin no GetNode). -/
theorem rewriteLinks_mem (setIds getIds : List Int)
    (redirects : List (Int × (Int × Int))) :
    ∀ (links : List Link) (lp : Link),
      lp ∈ (rewriteLinks setIds getIds redirects links).1 →
      ∃ l0 ∈ links,
        setIds.contains l0.toNode = false ∧
        getIds.contains l0.toNode = false ∧
        ((∃ sn ss, getIds.contains l0.fromNode = true ∧
            alookup redirects l0.fromNode = some (sn, ss) ∧
            lp = { l0 with fromNode := sn, fromSlot := ss }) ∨
         (getIds.contains l0.fromNode = false ∧ lp = l0)) := by
  intro links
  induction links with
  | nil => intro lp h; simp [rewriteLinks] at h
  | cons l rest ih =>
    intro lp h
    rw [rewriteLinks] at h
    by_cases h1 : setIds.contains l.toNode
    · rw [if_pos h1] at h
      obtain ⟨l0, hm, hc⟩ := ih lp h
      exact ⟨l0, List.mem_cons_of_mem _ hm, hc⟩
    · rw [if_neg h1] at h
      by_cases h2 : getIds.contains l.toNode
      · rw [if_pos h2] at h
        obtain ⟨l0, hm, hc⟩ := ih lp h
        exact ⟨l0, List.mem_cons_of_mem _ hm, hc⟩
      · rw [if_neg h2] at h
        by_cases h3 : getIds.contains l.fromNode
        · rw [if_pos h3] at h
          cases halk : alookup redirects l.fromNode with
          | some q =>
            obtain ⟨sn, ss⟩ := q
            rw [halk] at h
            rcases List.mem_cons.mp h with rfl | h4
            · exact ⟨l, List.mem_cons_self _ _,
                Bool.of_not_eq_true h1, Bool.of_not_eq_true h2,
                Or.inl ⟨sn, ss, h3, halk, rfl⟩⟩
            · obtain ⟨l0, hm, hc⟩ := ih lp h4
              exact ⟨l0, List.mem_cons_of_mem _ hm, hc⟩
          | none =>
            rw [halk] at h
            obtain ⟨l0, hm, hc⟩ := ih lp h
            exact ⟨l0, List.mem_cons_of_mem _ hm, hc⟩
        · rw [if_neg h3] at h
          rcases List.mem_cons.mp h with rfl | h4
          · exact ⟨lp, List.mem_cons_self _ _,
              Bool.of_not_eq_true h1, Bool.of_not_eq_true h2,
              Or.inr ⟨Bool.of_not_eq_true h3, rfl⟩⟩
          · obtain ⟨l0, hm, hc⟩ := ih lp h4
            exact ⟨l0, List.mem_cons_of_mem _ hm, hc⟩

/-- A link whose endpoints touch no Set/Get node survives the Set/Get
rewrite pass verbatim. -/
theorem rewriteLinks_mem_of (setIds getIds : List Int)
    (redirects : List (Int × (Int × Int))) :
    ∀ (links : List Link) (l : Link), l ∈ links →
      setIds.contains l.toNode = false →
      getIds.contains l.toNode = false →
      getIds.contains l.fromNode = false →
      l ∈ (rewriteLinks setIds getIds redirects links).1 := by
  intro links
  induction links with
  | nil => intro l h; simp at h
  | cons hd rest ih =>
    intro l hmem hc1 hc2 hc3
    rw [rewriteLinks]
    rcases List.mem_cons.mp hmem with rfl | h4
    · rw [if_neg (by rw [hc1]; simp), if_neg (by rw [hc2]; simp),
          if_neg (by rw [hc3]; simp)]
      exact List.mem_cons_self _ _
    · have hrec := ih l h4 hc1 hc2 hc3
      by_cases h1 : setIds.contains hd.toNode
      · rw [if_pos h1]; exact hrec
      · rw [if_neg h1]
        by_cases h2 : getIds.contains hd.toNode
        · rw [if_pos h2]; exact hrec
        · rw [if_neg h2]
          by_cases h3 : getIds.contains hd.fromNode
          · rw [if_pos h3]
            cases halk : alookup redirects hd.fromNode with
            | some q =>
              obtain ⟨sn, ss⟩ := q
              exact List.mem_cons_of_mem _ hrec
            | none => exact hrec
          · rw [if_neg h3]
            exact List.mem_cons_of_mem _ hrec

/-- Provenance of a link surviving the switch rewrite pass. -/
theorem rewriteSwitchLinks_mem (swIds : List Int)
    (redir : List (Int × (Int × Int))) :
    ∀ (links : List Link) (lp : Link),
      lp ∈ rewriteSwitchLinks swIds redir links →
      ∃ l0 ∈ links, swIds.contains l0.toNode = false ∧
        ((∃ sn ss, alookup redir l0.fromNode = some (sn, ss) ∧
            lp = { l0 with fromNode := sn, fromSlot := ss }) ∨
         (alookup redir l0.fromNode = none ∧ lp = l0)) := by
  intro links
  induction links with
  | nil => intro lp h; simp [rewriteSwitchLinks] at h
  | cons l rest ih =>
    intro lp h
    rw [rewriteSwitchLinks] at h
    by_cases h1 : swIds.contains l.toNode
    · rw [if_pos h1] at h
      obtain ⟨l0, hm, hc⟩ := ih lp h
      exact ⟨l0, List.mem_cons_of_mem _ hm, hc⟩
    · rw [if_neg h1] at h
      cases halk : alookup redir l.fromNode with
      | some q =>
        obtain ⟨sn, ss⟩ := q
        rw [halk] at h
        rcases List.mem_cons.mp h with rfl | h4
        · exact ⟨l, List.mem_cons_self _ _, Bool.of_not_eq_true h1,
            Or.inl ⟨sn, ss, halk, rfl⟩⟩
        · obtain ⟨l0, hm, hc⟩ := ih lp h4
          exact ⟨l0, List.mem_cons_of_mem _ hm, hc⟩
      | none =>
        rw [halk] at h
        rcases List.mem_cons.mp h with rfl | h4
        · exact ⟨lp, List.mem_cons_self _ _, Bool.of_not_eq_true h1,
            Or.inr ⟨halk, rfl⟩⟩
        · obtain ⟨l0, hm, hc⟩ := ih lp h4
          exact ⟨l0, List.mem_cons_of_mem _ hm, hc⟩

/-- A link not touching any switch survives the switch rewrite pass. -/
theorem rewriteSwitchLinks_mem_of (swIds : List Int)
    (redir : List (Int × (Int × Int))) :
    ∀ (links : List Link) (l : Link), l ∈ links →
      swIds.contains l.toNode = false →
      alookup redir l.fromNode = none →
      l ∈ rewriteSwitchLinks swIds redir links := by
  intro links
  induction links with
  | nil => intro l h; simp at h
  | cons hd rest ih =>
    intro l hmem hc1 hc2
    rw [rewriteSwitchLinks]
    rcases List.mem_cons.mp hmem with rfl | h4
    · rw [if_neg (by rw [hc1]; simp), hc2]
      exact List.mem_cons_self _ _
    · have hrec := ih l h4 hc1 hc2
      by_cases h1 : swIds.contains hd.toNode
      · rw [if_pos h1]; exact hrec
      · rw [if_neg h1]
        cases halk : alookup redir hd.fromNode with
        | some q =>
          obtain ⟨sn, ss⟩ := q
          exact List.mem_cons_of_mem _ hrec
        | none => exact List.mem_cons_of_mem _ hrec

/-- On editor-form input (a `nodes` key is present) the resolver
computes the staged rewrite. -/
theorem resolve_setget_nodes_editor (wf : Workflow) (ns : List FNode)
    (ls : List Link) (hn : wf.nodes = some ns) (hl : wf.links = some ls) :
    resolve_setget_nodes wf =
      ({ wf with nodes := some (resolvedFinalNodes ns),
                 links := some (resolvedFinalLinks ns ls) },
       resolveWarnings ns ls) := by
  have hg : isApiFormat wf = false := by simp [isApiFormat, hn]
  unfold resolve_setget_nodes
  rw [hg]
  simp [hn, hl]

/-- Membership characterization for `setnodeIds`. -/
theorem setnodeIds_contains_iff (ns : List FNode) (i : Int) :
    (setnodeIds ns).contains i = true ↔
    ∃ n ∈ ns, n.type = "SetNode" ∧ n.id = i := by
  unfold setnodeIds
  rw [typeIds_contains]
  constructor
  · rintro ⟨n, hm, hp, hid⟩; exact ⟨n, hm, by simpa using hp, hid⟩
  · rintro ⟨n, hm, hp, hid⟩; exact ⟨n, hm, by simp [hp], hid⟩

/-- Membership characterization for `getnodeIds`. -/
theorem getnodeIds_contains_iff (ns : List FNode) (i : Int) :
    (getnodeIds ns).contains i = true ↔
    ∃ n ∈ ns, n.type = "GetNode" ∧ n.id = i := by
  unfold getnodeIds
  rw [typeIds_contains]
  constructor
  · rintro ⟨n, hm, hp, hid⟩; exact ⟨n, hm, by simpa using hp, hid⟩
  · rintro ⟨n, hm, hp, hid⟩; exact ⟨n, hm, by simp [hp], hid⟩

/-- Membership characterization for `anyswitchIds`. -/
theorem anyswitchIds_contains_iff (ns : List FNode) (i : Int) :
    (anyswitchIds ns).contains i = true ↔
    ∃ n ∈ ns, n.type = "Any Switch (rgthree)" ∧ n.id = i := by
  unfold anyswitchIds
  rw [typeIds_contains]
  constructor
  · rintro ⟨n, hm, hp, hid⟩; exact ⟨n, hm, by simpa using hp, hid⟩
  · rintro ⟨n, hm, hp, hid⟩; exact ⟨n, hm, by simp [hp], hid⟩

/-- Membership characterization for `indirectionIds`. -/
theorem indirectionIds_contains_iff (ns : List FNode) (i : Int) :
    (indirectionIds ns).contains i = true ↔
    ∃ n ∈ ns, isIndirection n.type = true ∧ n.id = i := by
  unfold indirectionIds
  exact typeIds_contains _ ns i

/-- C7: resolving a graph whose GetNode `g` has no matching SetNode
entry (an orphan) is total and safe: (a) no surviving link carries the
id of any of the orphan's outgoing links, (b) every non-indirection node
survives, (c) every link touching only non-indirection nodes survives,
and (d) at least one warning is logged.  Node and link ids are assumed
unique, as the data model requires. -/
theorem C7_orphan_get_node_is_dropped_safely (wf : Workflow)
    (ns : List FNode) (ls : List Link) (g : FNode)
    (hn : wf.nodes = some ns) (hl : wf.links = some ls)
    (hg : g ∈ ns) (hgt : g.type = "GetNode")
    (horphan : alookup (setnodeSources ns ls) (nameOf g) = none)
    (hnids : (ns.map (fun n => n.id)).Nodup)
    (hlids : (ls.map (fun l => l.id)).Nodup) :
    (∀ l ∈ ls, l.fromNode = g.id →
       ∀ lp ∈ (resolve_setget_nodes wf).1.links.getD [], lp.id ≠ l.id) ∧
    (∀ n ∈ ns, isIndirection n.type = false →
       n ∈ (resolve_setget_nodes wf).1.nodes.getD []) ∧
    (∀ l ∈ ls, (indirectionIds ns).contains l.fromNode = false →
       (indirectionIds ns).contains l.toNode = false →
       l ∈ (resolve_setget_nodes wf).1.links.getD []) ∧
    1 ≤ (resolve_setget_nodes wf).2 := by
  have injNodes : ∀ x ∈ ns, ∀ y ∈ ns, x.id = y.id → x = y :=
    fun x hx y hy => List.inj_on_of_nodup_map hnids hx hy
  have injLinks : ∀ x ∈ ls, ∀ y ∈ ls, x.id = y.id → x = y :=
    fun x hx y hy => List.inj_on_of_nodup_map hlids hx hy
  rw [resolve_setget_nodes_editor wf ns ls hn hl]
  simp only [Option.getD_some]
  have hredir :
      alookup (getnodeRedirects ns (setnodeSources ns ls)) g.id = none := by
    cases hval : alookup (getnodeRedirects ns (setnodeSources ns ls)) g.id with
    | none => rfl
    | some p =>
      exfalso
      have hmem := alookup_mem _ _ _ hval
      rcases getnodeRedirects_entry (setnodeSources ns ls) ns [] _ hmem with
        h0 | ⟨n2, hm2, ht2, hid2, t, hsrc⟩
      · simp at h0
      · have hn2g : n2 = g := injNodes n2 hm2 g hg (by rw [← hid2])
        rw [hn2g, horphan] at hsrc
        cases hsrc
  refine ⟨?_, ?_, ?_, ?_⟩
  · -- (a) the orphan's outgoing links are gone
    intro l hlmem hfrom lp hlpmem hideq
    unfold resolvedFinalLinks at hlpmem
    obtain ⟨l0, hl0mem, _, hcase⟩ :=
      rewriteSwitchLinks_mem _ _ _ lp hlpmem
    have hid0 : lp.id = l0.id := by
      rcases hcase with ⟨sn, ss, _, h⟩ | ⟨_, h⟩ <;> rw [h]
    unfold resolvedNewLinksPair at hl0mem
    obtain ⟨l1, hl1mem, hc1, hc2, hcase2⟩ :=
      rewriteLinks_mem _ _ _ ls l0 hl0mem
    have hid1 : l0.id = l1.id := by
      rcases hcase2 with ⟨sn, ss, _, _, h⟩ | ⟨_, h⟩ <;> rw [h]
    have hl1l : l1 = l := by
      refine injLinks l1 hl1mem l hlmem ?_
      rw [← hid1, ← hid0, hideq]
    subst hl1l
    rcases hcase2 with ⟨sn, ss, _, halk, _⟩ | ⟨hgetf, _⟩
    · rw [hfrom, hredir] at halk
      cases halk
    · have hgett : (getnodeIds ns).contains l1.fromNode = true := by
        rw [hfrom]
        exact (getnodeIds_contains_iff ns g.id).mpr ⟨g, hg, hgt, rfl⟩
      rw [hgett] at hgetf
      cases hgetf
  · -- (b) non-indirection nodes survive
    intro n hnmem hnind
    have hsetf : (setnodeIds ns).contains n.id = false := by
      cases hb : (setnodeIds ns).contains n.id with
      | false => rfl
      | true =>
        exfalso
        obtain ⟨m, hm, hmt, hmid⟩ := (setnodeIds_contains_iff ns n.id).mp hb
        have hmn : m = n := injNodes m hm n hnmem hmid
        rw [hmn] at hmt
        rw [hmt] at hnind
        simp [isIndirection] at hnind
    have hgetf : (getnodeIds ns).contains n.id = false := by
      cases hb : (getnodeIds ns).contains n.id with
      | false => rfl
      | true =>
        exfalso
        obtain ⟨m, hm, hmt, hmid⟩ := (getnodeIds_contains_iff ns n.id).mp hb
        have hmn : m = n := injNodes m hm n hnmem hmid
        rw [hmn] at hmt
        rw [hmt] at hnind
        simp [isIndirection] at hnind
    have hnew : n ∈ resolvedNewNodes ns := by
      unfold resolvedNewNodes
      exact List.mem_filter.mpr ⟨hnmem, by rw [hsetf, hgetf]; rfl⟩
    have hswf : (resolvedSwIds ns).contains n.id = false := by
      cases hb : (resolvedSwIds ns).contains n.id with
      | false => rfl
      | true =>
        exfalso
        unfold resolvedSwIds at hb
        obtain ⟨m, hm, hmt, hmid⟩ :=
          (anyswitchIds_contains_iff (resolvedNewNodes ns) n.id).mp hb
        unfold resolvedNewNodes at hm
        have hm2 : m ∈ ns := (List.mem_filter.mp hm).1
        have hmn : m = n := injNodes m hm2 n hnmem hmid
        rw [hmn] at hmt
        rw [hmt] at hnind
        simp [isIndirection] at hnind
    unfold resolvedFinalNodes
    exact List.mem_filter.mpr ⟨hnew, by rw [hswf]; rfl⟩
  · -- (c) links between executable nodes survive
    intro l hlmem hfr hto
    have hc1 : (setnodeIds ns).contains l.toNode = false := by
      cases hb : (setnodeIds ns).contains l.toNode with
      | false => rfl
      | true =>
        exfalso
        obtain ⟨m, hm, hmt, hmid⟩ := (setnodeIds_contains_iff ns l.toNode).mp hb
        have : (indirectionIds ns).contains l.toNode = true :=
          (indirectionIds_contains_iff ns l.toNode).mpr
            ⟨m, hm, by simp [isIndirection, hmt], hmid⟩
        rw [this] at hto
        cases hto
    have hc2 : (getnodeIds ns).contains l.toNode = false := by
      cases hb : (getnodeIds ns).contains l.toNode with
      | false => rfl
      | true =>
        exfalso
        obtain ⟨m, hm, hmt, hmid⟩ := (getnodeIds_contains_iff ns l.toNode).mp hb
        have : (indirectionIds ns).contains l.toNode = true :=
          (indirectionIds_contains_iff ns l.toNode).mpr
            ⟨m, hm, by simp [isIndirection, hmt], hmid⟩
        rw [this] at hto
        cases hto
    have hc3 : (getnodeIds ns).contains l.fromNode = false := by
      cases hb : (getnodeIds ns).contains l.fromNode with
      | false => rfl
      | true =>
        exfalso
        obtain ⟨m, hm, hmt, hmid⟩ :=
          (getnodeIds_contains_iff ns l.fromNode).mp hb
        have : (indirectionIds ns).contains l.fromNode = true :=
          (indirectionIds_contains_iff ns l.fromNode).mpr
            ⟨m, hm, by simp [isIndirection, hmt], hmid⟩
        rw [this] at hfr
        cases hfr
    have hnewmem : l ∈ (resolvedNewLinksPair ns ls).1 := by
      unfold resolvedNewLinksPair
      exact rewriteLinks_mem_of _ _ _ ls l hlmem hc1 hc2 hc3
    have hc4 : (resolvedSwIds ns).contains l.toNode = false := by
      cases hb : (resolvedSwIds ns).contains l.toNode with
      | false => rfl
      | true =>
        exfalso
        unfold resolvedSwIds at hb
        obtain ⟨m, hm, hmt, hmid⟩ :=
          (anyswitchIds_contains_iff (resolvedNewNodes ns) l.toNode).mp hb
        unfold resolvedNewNodes at hm
        have hm2 : m ∈ ns := (List.mem_filter.mp hm).1
        have : (indirectionIds ns).contains l.toNode = true :=
          (indirectionIds_contains_iff ns l.toNode).mpr
            ⟨m, hm2, by simp [isIndirection, hmt], hmid⟩
        rw [this] at hto
        cases hto
    have hc5 : alookup (resolvedSwRedir ns ls) l.fromNode = none := by
      cases hval : alookup (resolvedSwRedir ns ls) l.fromNode with
      | none => rfl
      | some p =>
        exfalso
        have hmem := alookup_mem _ _ _ hval
        unfold resolvedSwRedir at hmem
        rcases anyswitchRedirects_entry _ (resolvedNewNodes ns) [] _ hmem with
          h0 | ⟨m, hm, hmt, hmid, _⟩
        · simp at h0
        · unfold resolvedNewNodes at hm
          have hm2 : m ∈ ns := (List.mem_filter.mp hm).1
          have : (indirectionIds ns).contains l.fromNode = true :=
            (indirectionIds_contains_iff ns l.fromNode).mpr
              ⟨m, hm2, by simp [isIndirection, hmt], by rw [← hmid]⟩
          rw [this] at hfr
          cases hfr
    unfold resolvedFinalLinks
    exact rewriteSwitchLinks_mem_of _ _ _ l hnewmem hc4 hc5
  · -- (d) at least one warning
    unfold resolveWarnings
    have hgmem : g ∈ ns.filter
        (fun n => n.type == "GetNode" &&
          (alookup (setnodeSources ns ls) (nameOf n)).isNone) :=
      List.mem_filter.mpr ⟨hg, by simp [hgt, horphan]⟩
    have hpos : 0 < orphanGetCount ns (setnodeSources ns ls) := by
      unfold orphanGetCount
      exact List.length_pos.mpr (List.ne_nil_of_mem hgmem)
    omega

/-- Witness for C7: resolving `wf7orphan` (orphan GetNode id 3, name
`y`) logs at least one warning. -/
theorem C7_orphan_get_node_is_dropped_safely_witness :
    1 ≤ (resolve_setget_nodes wf7orphan).2 :=
  (C7_orphan_get_node_is_dropped_safely wf7orphan _ _
    (mkNode 3 "GetNode" [.str "y"] [])
    rfl rfl (by decide) rfl (by decide) (by decide) (by decide)).2.2.2

/-- With unique node ids, a switch node survives the Set/Get node
removal (its id cannot collide with a Set/Get node's id). -/
theorem switch_mem_resolvedNewNodes (ns : List FNode)
    (hnids : (ns.map (fun n => n.id)).Nodup) (m : FNode) (hm : m ∈ ns)
    (hmt : m.type = "Any Switch (rgthree)") : m ∈ resolvedNewNodes ns := by
  have injNodes : ∀ x ∈ ns, ∀ y ∈ ns, x.id = y.id → x = y :=
    fun x hx y hy => List.inj_on_of_nodup_map hnids hx hy
  unfold resolvedNewNodes
  refine List.mem_filter.mpr ⟨hm, ?_⟩
  have hs : (setnodeIds ns).contains m.id = false := by
    cases hb : (setnodeIds ns).contains m.id with
    | false => rfl
    | true =>
      exfalso
      obtain ⟨m2, hm2, hm2t, hm2id⟩ := (setnodeIds_contains_iff ns m.id).mp hb
      have heq : m2 = m := injNodes m2 hm2 m hm hm2id
      rw [heq, hmt] at hm2t
      exact absurd hm2t (by decide)
  have hg : (getnodeIds ns).contains m.id = false := by
    cases hb : (getnodeIds ns).contains m.id with
    | false => rfl
    | true =>
      exfalso
      obtain ⟨m2, hm2, hm2t, hm2id⟩ := (getnodeIds_contains_iff ns m.id).mp hb
      have heq : m2 = m := injNodes m2 hm2 m hm hm2id
      rw [heq, hmt] at hm2t
      exact absurd hm2t (by decide)
  rw [hs, hg]
  rfl

/-- With unique node ids, every switch node's id is collected into the
switch-id set used by the final rewrite pass. -/
theorem swIds_contains_of (ns : List FNode)
    (hnids : (ns.map (fun n => n.id)).Nodup) (m : FNode) (hm : m ∈ ns)
    (hmt : m.type = "Any Switch (rgthree)") (i : Int) (hmid : m.id = i) :
    (resolvedSwIds ns).contains i = true := by
  unfold resolvedSwIds
  exact (anyswitchIds_contains_iff _ _).mpr
    ⟨m, switch_mem_resolvedNewNodes ns hnids m hm hmt, hmt, hmid⟩

/-- C3 (amended): for an editor-form graph with unique node ids in which
(1) no link originates at a SetNode, (2) every recorded store source is
an executable (non-indirection) node, (3) every switch redirect target
is an executable node, and (4) every switch id occurring as the origin
of a rewritten link has a redirect (its first connected input resolved),
the resolved graph contains zero indirection-kind nodes and zero links
that originate at or terminate on an indirection node of the input
graph. -/
theorem C3_amended_resolution_eliminates_indirection (wf : Workflow)
    (ns : List FNode) (ls : List Link)
    (hn : wf.nodes = some ns) (hl : wf.links = some ls)
    (hnids : (ns.map (fun n => n.id)).Nodup)
    (h1 : ∀ l ∈ ls, (setnodeIds ns).contains l.fromNode = false)
    (h2 : ∀ e ∈ setnodeSources ns ls,
        (indirectionIds ns).contains e.2.1 = false)
    (h3 : ∀ e ∈ resolvedSwRedir ns ls,
        (indirectionIds ns).contains e.2.1 = false)
    (h4 : ∀ l ∈ (resolvedNewLinksPair ns ls).1,
        (resolvedSwIds ns).contains l.fromNode = true →
        (alookup (resolvedSwRedir ns ls) l.fromNode).isSome = true) :
    (∀ n ∈ (resolve_setget_nodes wf).1.nodes.getD [],
        isIndirection n.type = false) ∧
    (∀ lp ∈ (resolve_setget_nodes wf).1.links.getD [],
        (indirectionIds ns).contains lp.fromNode = false ∧
        (indirectionIds ns).contains lp.toNode = false) := by
  have injNodes : ∀ x ∈ ns, ∀ y ∈ ns, x.id = y.id → x = y :=
    fun x hx y hy => List.inj_on_of_nodup_map hnids hx hy
  rw [resolve_setget_nodes_editor wf ns ls hn hl]
  simp only [Option.getD_some]
  constructor
  · -- no indirection node survives
    intro n hnmem
    unfold resolvedFinalNodes at hnmem
    obtain ⟨hnew, hswf⟩ := List.mem_filter.mp hnmem
    have hnew2 := hnew
    unfold resolvedNewNodes at hnew2
    obtain ⟨hns, hflt⟩ := List.mem_filter.mp hnew2
    cases hb : isIndirection n.type with
    | false => rfl
    | true =>
      exfalso
      have hb2 := hb
      simp only [isIndirection, Bool.or_eq_true, beq_iff_eq] at hb2
      rcases hb2 with (hset | hget) | hsw
      · have hc : (setnodeIds ns).contains n.id = true :=
          (setnodeIds_contains_iff ns n.id).mpr ⟨n, hns, hset, rfl⟩
        rw [hc] at hflt
        simp at hflt
      · have hc : (getnodeIds ns).contains n.id = true :=
          (getnodeIds_contains_iff ns n.id).mpr ⟨n, hns, hget, rfl⟩
        rw [hc] at hflt
        simp at hflt
      · have hc : (resolvedSwIds ns).contains n.id = true := by
          unfold resolvedSwIds
          exact (anyswitchIds_contains_iff _ _).mpr ⟨n, hnew, hsw, rfl⟩
        rw [hc] at hswf
        simp at hswf
  · -- no surviving link references an indirection node
    intro lp hlpmem
    unfold resolvedFinalLinks at hlpmem
    obtain ⟨l0, hl0mem, hswto, hcase⟩ :=
      rewriteSwitchLinks_mem _ _ _ lp hlpmem
    have hl0mem2 := hl0mem
    unfold resolvedNewLinksPair at hl0mem2
    obtain ⟨l1, hl1mem, hsetto, hgetto, hcase2⟩ :=
      rewriteLinks_mem _ _ _ ls l0 hl0mem2
    have htoeq : l0.toNode = l1.toNode := by
      rcases hcase2 with ⟨sn, ss, _, _, h⟩ | ⟨_, h⟩ <;> rw [h]
    -- the target of every surviving step-3 link is executable
    have hto_not : (indirectionIds ns).contains l0.toNode = false := by
      cases hb : (indirectionIds ns).contains l0.toNode with
      | false => rfl
      | true =>
        exfalso
        obtain ⟨m, hm, hmt, hmid⟩ :=
          (indirectionIds_contains_iff ns l0.toNode).mp hb
        simp only [isIndirection, Bool.or_eq_true, beq_iff_eq] at hmt
        rcases hmt with (hset | hget) | hsw
        · have hc : (setnodeIds ns).contains l1.toNode = true :=
            (setnodeIds_contains_iff ns l1.toNode).mpr
              ⟨m, hm, hset, by rw [hmid, htoeq]⟩
          rw [hc] at hsetto
          cases hsetto
        · have hc : (getnodeIds ns).contains l1.toNode = true :=
            (getnodeIds_contains_iff ns l1.toNode).mpr
              ⟨m, hm, hget, by rw [hmid, htoeq]⟩
          rw [hc] at hgetto
          cases hgetto
        · have hc : (resolvedSwIds ns).contains l0.toNode = true :=
            swIds_contains_of ns hnids m hm hsw _ hmid
          rw [hc] at hswto
          cases hswto
    -- conclude for lp, by how the switch pass treated l0
    rcases hcase with ⟨sn, ss, halk, heq⟩ | ⟨hnone, heq⟩
    · -- lp's origin is a switch redirect target: executable by h3
      have hmem3 := alookup_mem _ _ _ halk
      have hsn := h3 _ hmem3
      constructor
      · rw [heq]
        exact hsn
      · rw [heq]
        exact hto_not
    · -- lp = l0 kept verbatim: show l0's origin is executable
      have hfrom_not : (indirectionIds ns).contains l0.fromNode = false := by
        rcases hcase2 with ⟨sn2, ss2, _, halk2, heq2⟩ | ⟨hgetf, heq2⟩
        · -- l0's origin is a GetNode redirect target, recorded in srcs
          have hmem2 := alookup_mem _ _ _ halk2
          rcases getnodeRedirects_entry (setnodeSources ns ls) ns [] _ hmem2 with
            h0 | ⟨n2, _, _, _, t, hsrc⟩
          · simp at h0
          · have hsrcmem := alookup_mem _ _ _ hsrc
            have := h2 _ hsrcmem
            rw [heq2]
            exact this
        · -- l0 = l1 kept verbatim through both passes
          rw [heq2] at hnone hl0mem ⊢
          cases hb : (indirectionIds ns).contains l1.fromNode with
          | false => rfl
          | true =>
            exfalso
            obtain ⟨m, hm, hmt, hmid⟩ :=
              (indirectionIds_contains_iff ns l1.fromNode).mp hb
            simp only [isIndirection, Bool.or_eq_true, beq_iff_eq] at hmt
            rcases hmt with (hset | hget) | hsw
            · have hc : (setnodeIds ns).contains l1.fromNode = true :=
                (setnodeIds_contains_iff ns l1.fromNode).mpr ⟨m, hm, hset, hmid⟩
              rw [h1 l1 hl1mem] at hc
              cases hc
            · have hc : (getnodeIds ns).contains l1.fromNode = true :=
                (getnodeIds_contains_iff ns l1.fromNode).mpr ⟨m, hm, hget, hmid⟩
              rw [hc] at hgetf
              cases hgetf
            · have hc : (resolvedSwIds ns).contains l1.fromNode = true :=
                swIds_contains_of ns hnids m hm hsw _ hmid
              have hsome := h4 l1 hl0mem hc
              rw [hnone] at hsome
              cases hsome
      constructor
      · rw [heq]
        exact hfrom_not
      · rw [heq]
        exact hto_not

/-- Witness for the amended C3 at the spec section-8 example graph: the
surviving node `1` is executable and the single surviving link `1 -> 4`
touches no indirection node. -/
theorem C3_amended_resolution_eliminates_indirection_witness :
    isIndirection (mkNode 1 "LoadImage" [.str "a.png"] []).type = false ∧
    (indirectionIds (wfSpecExample.nodes.getD [])).contains
        (⟨2, 1, 0, 4, 0, "IMAGE", []⟩ : Link).fromNode = false ∧
    (indirectionIds (wfSpecExample.nodes.getD [])).contains
        (⟨2, 1, 0, 4, 0, "IMAGE", []⟩ : Link).toNode = false :=
  ⟨(C3_amended_resolution_eliminates_indirection wfSpecExample _ _ rfl rfl
      (by decide) (by decide) (by decide) (by decide) (by decide)).1
      (mkNode 1 "LoadImage" [.str "a.png"] []) (by decide),
   (C3_amended_resolution_eliminates_indirection wfSpecExample _ _ rfl rfl
      (by decide) (by decide) (by decide) (by decide) (by decide)).2
      ⟨2, 1, 0, 4, 0, "IMAGE", []⟩ (by decide)⟩

/-- C5 (counterexample): the streaming monitor forwards
`int(100*value/max)` verbatim, so the backend message sequence
`progress{10,20}, progress{5,20}` — which real multi-sampler workflows
produce — makes the caller-visible progress go 50 then 25: the reported
sequence is not non-decreasing and no terminal event intervened. -/
theorem C5_counterexample_decreasing_progress :
    streamPcts "p" [.progress 10 20, .progress 5 20] 0 = [50, 25] ∧
    ¬ List.Chain' (fun a b => a ≤ b)
        (streamPcts "p" [.progress 10 20, .progress 5 20] 0) := by
  have h : streamPcts "p" [.progress 10 20, .progress 5 20] 0 = [50, 25] := by
    simp only [streamPcts, wait_for_result_loop]
    norm_num [pctOf, pyInt, List.filterMap]
  refine ⟨h, ?_⟩
  rw [h]
  simp only [List.chain'_cons, List.chain'_singleton, and_true]
  omega

/-- Python `int()` truncation is monotone on rationals. -/
theorem pyInt_mono {q1 q2 : ℚ} (h : q1 ≤ q2) : pyInt q1 ≤ pyInt q2 := by
  unfold pyInt
  by_cases h1 : 0 ≤ q1
  · rw [if_pos h1, if_pos (le_trans h1 h)]
    exact Int.floor_le_floor h
  · rw [if_neg h1]
    by_cases h2 : 0 ≤ q2
    · rw [if_pos h2]
      calc ⌈q1⌉ ≤ 0 := Int.ceil_le.mpr (by exact_mod_cast le_of_not_le h1)
        _ ≤ ⌊q2⌋ := Int.floor_nonneg.mpr h2
    · rw [if_neg h2]
      exact Int.ceil_le_ceil h

/-- The processed prefix is a prefix of the message stream. -/
theorem preTerm_isPrefix (pid : String) :
    ∀ msgs : List WsMsg, List.IsPrefix (preTerm pid msgs) msgs := by
  intro msgs
  induction msgs with
  | nil => exact List.prefix_refl _
  | cons m rest ih =>
    obtain ⟨t, ht⟩ := ih
    cases m with
    | executing node pid2 =>
      rw [preTerm]
      by_cases hc : node = none ∧ pid2 = some pid
      · rw [if_pos hc]
        exact List.nil_prefix
      · rw [if_neg hc]
        exact ⟨t, by rw [List.cons_append, ht]⟩
    | executionError a b c =>
      rw [preTerm]
      exact List.nil_prefix
    | binaryFrame len =>
      rw [preTerm]
      exact ⟨t, by rw [List.cons_append, ht]⟩
    | progress v mx =>
      rw [preTerm]
      exact ⟨t, by rw [List.cons_append, ht]⟩
    | jsonOther =>
      rw [preTerm]
      exact ⟨t, by rw [List.cons_append, ht]⟩
    | recvTimeout =>
      rw [preTerm]
      exact ⟨t, by rw [List.cons_append, ht]⟩

/-- The percentages the monitor reports are exactly the positive-max
`value/max` ratios of the processed prefix, scaled by 100 and truncated. -/
theorem streamPcts_eq_ratios (pid : String) :
    ∀ (msgs : List WsMsg) (step : Int),
      streamPcts pid msgs step =
        ((preTerm pid msgs).filterMap posRatio).map (fun q => pyInt (q * 100)) := by
  intro msgs
  induction msgs with
  | nil => intro step; rfl
  | cons m rest ih =>
    intro step
    cases m with
    | binaryFrame len =>
      have hstep : streamPcts pid (WsMsg.binaryFrame len :: rest) step
          = streamPcts pid rest step := by
        unfold streamPcts
        rw [wait_for_result_loop]
        by_cases hlen : 8 < len
        · simp [hlen]
        · simp [hlen]
      rw [hstep, ih step, preTerm]
      simp [posRatio]
    | progress v mx =>
      by_cases hmx : 0 < mx
      · have hstep : streamPcts pid (WsMsg.progress v mx :: rest) step
            = pctOf v mx :: streamPcts pid rest v := by
          unfold streamPcts
          rw [wait_for_result_loop]
          simp [hmx]
        rw [hstep, ih v, preTerm]
        simp [posRatio, hmx, pctOf]
      · have hstep : streamPcts pid (WsMsg.progress v mx :: rest) step
            = streamPcts pid rest v := by
          unfold streamPcts
          rw [wait_for_result_loop]
          simp [hmx]
        rw [hstep, ih v, preTerm]
        simp [posRatio, hmx]
    | executing node pid2 =>
      rw [preTerm]
      by_cases hc : node = none ∧ pid2 = some pid
      · have hstep : streamPcts pid (WsMsg.executing node pid2 :: rest) step
            = [] := by
          unfold streamPcts
          rw [wait_for_result_loop]
          simp [hc]
        rw [hstep, if_pos hc]
        rfl
      · have hstep : streamPcts pid (WsMsg.executing node pid2 :: rest) step
            = streamPcts pid rest step := by
          unfold streamPcts
          rw [wait_for_result_loop]
          simp [hc]
        rw [hstep, if_neg hc, ih step]
        simp [posRatio]
    | executionError a b c =>
      have hstep : streamPcts pid (WsMsg.executionError a b c :: rest) step
          = [] := by
        unfold streamPcts
        rw [wait_for_result_loop]
        rfl
      rw [hstep, preTerm]
      rfl
    | jsonOther =>
      have hstep : streamPcts pid (WsMsg.jsonOther :: rest) step
          = streamPcts pid rest step := by
        unfold streamPcts
        rw [wait_for_result_loop]
      rw [hstep, ih step, preTerm]
      simp [posRatio]
    | recvTimeout =>
      have hstep : streamPcts pid (WsMsg.recvTimeout :: rest) step
          = streamPcts pid rest step := by
        unfold streamPcts
        rw [wait_for_result_loop]
      rw [hstep, ih step, preTerm]
      simp [posRatio]

/-- C5 (amended): the polling fallback's synthesized estimate
`min(95, int(100*elapsed/timeout))` is monotone in elapsed time and
capped at 95 (< 100) until real completion; during streaming, the
reported percentages are the backend's `value/max` ratios scaled and
truncated, and they are non-decreasing whenever those ratios are
non-decreasing.  (No monotonicity holds for arbitrary backend ratio
sequences or across the streaming-to-polling transition — see the
counterexample.) -/
theorem C5_amended_progress_monotonicity :
    (∀ e1 e2 T : ℚ, e1 ≤ e2 → 0 < T →
        poll_progress e1 T ≤ poll_progress e2 T ∧ poll_progress e2 T ≤ 95) ∧
    (∀ (pid : String) (msgs : List WsMsg) (step : Int),
        List.Chain' (fun a b => a ≤ b) (msgs.filterMap posRatio) →
        List.Chain' (fun a b => a ≤ b) (streamPcts pid msgs step)) := by
  constructor
  · intro e1 e2 T h hT
    constructor
    · unfold poll_progress
      refine min_le_min (le_refl 95) (pyInt_mono ?_)
      exact mul_le_mul_of_nonneg_right
        ((div_le_div_iff_of_pos_right hT).mpr h) (by norm_num)
    · exact min_le_left _ _
  · intro pid msgs step hchain
    have hsub : List.Sublist ((preTerm pid msgs).filterMap posRatio)
        (msgs.filterMap posRatio) :=
      ((preTerm_isPrefix pid msgs).sublist).filterMap posRatio
    have hchain2 := hchain.sublist hsub
    rw [streamPcts_eq_ratios, List.chain'_map]
    exact List.Chain'.imp
      (fun a b hab =>
        pyInt_mono (mul_le_mul_of_nonneg_right hab (by norm_num)))
      hchain2

/-- Witness for the amended C5: concrete instances — the poll estimate
is monotone from 10s to 20s of a 600s deadline and capped at 95, and a
non-decreasing backend stream yields a non-decreasing report list. -/
theorem C5_amended_progress_monotonicity_witness :
    (poll_progress 10 600 ≤ poll_progress 20 600 ∧ poll_progress 20 600 ≤ 95) ∧
    List.Chain' (fun a b => a ≤ b)
      (streamPcts "p" [.progress 5 20, .progress 10 20] 0) :=
  ⟨C5_amended_progress_monotonicity.1 10 20 600 (by norm_num) (by norm_num),
   C5_amended_progress_monotonicity.2 "p" [.progress 5 20, .progress 10 20] 0
     (by simp [posRatio, List.filterMap]; norm_num)⟩

/-- C3 (counterexample): `wf3cex` is an editor-form graph containing all
three indirection kinds, yet its resolved output still contains a link
originating at an indirection node (the SetNode, id 1) — the resolver
only rewrites links *out of* GetNodes and drops links *into* Set/Get
nodes, never links *out of* a SetNode. -/
theorem C3_counterexample_setnode_origin_link_survives :
    (wf3cex.nodes.getD []).any (fun n => n.type == "SetNode") = true ∧
    (wf3cex.nodes.getD []).any (fun n => n.type == "GetNode") = true ∧
    (wf3cex.nodes.getD []).any (fun n => n.type == "Any Switch (rgthree)") = true ∧
    ((resolve_setget_nodes wf3cex).1.links.getD []).any
        (fun l => (indirectionIds (wf3cex.nodes.getD [])).contains l.fromNode)
      = true := by
  exact ⟨rfl, rfl, rfl, rfl⟩

end UpscaleEngine
